import Mathlib

/-!
Verification of the modusDB lease manager ("zero") and typed object API
against its natural-language specification.

The Go sources are shallowly embedded: Go `uint64` counters are modelled as
unbounded naturals (`Nat`); the values involved stay far below `2^64` in every
scenario exercised here, and no wrap-around arithmetic is relied upon by the
source logic under study.  Fallible Go calls return `Bool`/`Option`/`Except`
results, with external effects (the badger persistence call, the Dgraph engine)
represented by explicit oracle parameters.  The persistent zero-state record
and a counter of successful persistence calls are carried alongside the
in-memory `zero` struct so that durability claims can be stated.
-/

namespace ModusDB

/-! ### Constants (src/unnamed/part_000, lines 15-32) -/

/-- We store zero data at UID 1 and assign the UIDs starting from 2. -/
def initialUID : Nat := 2

/-- We store zero data at timestamp 2 and assign timestamps starting from 3. -/
def initialTs : Nat := 3

/-- UIDs are (per the source comment) leased in batches of 10000. -/
def leaseUIDAtATime : Nat := 10000

/-- Timestamps are (per the source comment) leased in batches of 10000. -/
def leaseTsAtATime : Nat := 10000

/-! ### Data model -/

/-- The persisted zero state (`pb.MembershipState` fields written by
`writeZeroState`): the maximum leased UID, the maximum leased transaction
timestamp and the last namespace id. -/
structure MembershipState where
  MaxUID : Nat
  MaxTxnTs : Nat
  MaxNsID : Nat
deriving Repr, DecidableEq

/-- The in-memory `zero` struct (src/unnamed/part_000, lines 35-43).  The
mutex is irrelevant in this sequential model. -/
structure Zero where
  minLeasedUID : Nat
  maxLeasedUID : Nat
  minLeasedTs : Nat
  maxLeasedTs : Nat
  lastNS : Nat
deriving Repr, DecidableEq

/-- A world pairs the in-memory `zero` struct with the durable store:
`persisted` is the zero-state record held by badger (`none` before the very
first successful `writeZeroState`), and `writes` is a ghost counter of the
successful persistence calls, used to state batch-extension counting. -/
structure World where
  z : Zero
  persisted : Option MembershipState
  writes : Nat
deriving Repr, DecidableEq

/-- The `pb.AssignedIds` response of `nextUIDs`. -/
structure AssignedIds where
  StartId : Nat
  EndId : Nat
deriving Repr, DecidableEq

/-- The UID values a caller reads out of an `AssignedIds` response: the
inclusive range `[StartId, EndId]` (empty when `EndId < StartId`). -/
def AssignedIds.toList (r : AssignedIds) : List Nat :=
  List.range' r.StartId (r.EndId + 1 - r.StartId)

/-! ### Operations (src/unnamed/part_000) -/

/-- `writeZeroState` (lines 176-199): marshal the current maxima and commit
them to the store.  The oracle `wok` tells whether the marshal/commit
succeeds; on failure nothing durable changes. -/
def writeZeroState (wok : Bool) (w : World) : Bool × World :=
  if wok then
    (true, { w with
              persisted := some ⟨w.z.maxLeasedUID, w.z.maxLeasedTs, w.z.lastNS⟩,
              writes := w.writes + 1 })
  else (false, w)

/-- `leaseTs` (lines 150-161).  Note the source advances the in-memory
maximum by `minLeasedTs + leaseTsAtATime` (a `+=`, not an assignment) and
does so before the persistence attempt. -/
def leaseTs (wok : Bool) (w : World) : Bool × World :=
  if w.z.minLeasedTs + leaseTsAtATime ≤ w.z.maxLeasedTs then (true, w)
  else
    writeZeroState wok
      { w with z := { w.z with
          maxLeasedTs := w.z.maxLeasedTs + (w.z.minLeasedTs + leaseTsAtATime) } }

/-- `leaseUIDs` (lines 163-174).  Same shape as `leaseTs`, on the UID space. -/
def leaseUIDs (wok : Bool) (w : World) : Bool × World :=
  if w.z.minLeasedUID + leaseUIDAtATime ≤ w.z.maxLeasedUID then (true, w)
  else
    writeZeroState wok
      { w with z := { w.z with
          maxLeasedUID := w.z.maxLeasedUID + (w.z.minLeasedUID + leaseUIDAtATime) } }

/-- On a successful lease from a state whose UID batch is exhausted, the
in-memory maximum advances by `minLeasedUID + leaseUIDAtATime` and the rest of
the `zero` struct is untouched. -/
theorem leaseUIDs_true_elim (wok : Bool) (w w' : World)
    (h : w.z.maxLeasedUID ≤ w.z.minLeasedUID)
    (hres : leaseUIDs wok w = (true, w')) :
    w'.z.minLeasedUID = w.z.minLeasedUID ∧
    w'.z.maxLeasedUID = w.z.maxLeasedUID + (w.z.minLeasedUID + leaseUIDAtATime) := by
  unfold leaseUIDs writeZeroState at hres
  split at hres
  · rename_i hcond
    exfalso
    simp only [leaseUIDAtATime] at hcond
    omega
  · split at hres
    · cases hres
      exact ⟨rfl, rfl⟩
    · cases hres

/-- The `for z.minLeasedUID >= z.maxLeasedUID` loop at the end of `nextUIDs`
(lines 128-132): keep leasing until the next UID to hand out is strictly
below the leased maximum, propagating a lease failure. -/
def uidLoop (wok : Bool) (w : World) : Bool × World :=
  if w.z.maxLeasedUID ≤ w.z.minLeasedUID then
    match hres : leaseUIDs wok w with
    | (false, w') => (false, w')
    | (true, w') => uidLoop wok w'
  else (true, w)
termination_by w.z.minLeasedUID + 1 - w.z.maxLeasedUID
decreasing_by
  rename_i h
  have hadv := leaseUIDs_true_elim wok w w' h hres
  simp only [leaseUIDAtATime] at hadv
  omega

/-- `nextTS` (lines 79-93): lease first if the batch is exhausted, then hand
out `minLeasedTs` and advance it.  The engine-side `ProcessDelta` publication
is an external effect outside this model. -/
def nextTS (wok : Bool) (w : World) : Option Nat × World :=
  if w.z.maxLeasedTs ≤ w.z.minLeasedTs then
    match leaseTs wok w with
    | (false, w') => (none, w')
    | (true, w') =>
      (some w'.z.minLeasedTs,
       { w' with z := { w'.z with minLeasedTs := w'.z.minLeasedTs + 1 } })
  else
    (some w.z.minLeasedTs,
     { w with z := { w.z with minLeasedTs := w.z.minLeasedTs + 1 } })

/-- `readTs` (lines 95-100). -/
def readTs (w : World) : Nat := w.z.minLeasedTs - 1

/-- `nextUIDs` (lines 110-136): build the response (bump mode or count mode),
advance `minLeasedUID`, then run the lease loop.  The engine-side
`worker.SetMaxUID` publication is an external effect outside this model. -/
def nextUIDs (wok : Bool) (bump : Bool) (val : Nat) (w : World) :
    Option AssignedIds × World :=
  let (resp, z1) :=
    if bump then
      if val ≤ w.z.minLeasedUID then
        (AssignedIds.mk w.z.minLeasedUID w.z.minLeasedUID,
         { w.z with minLeasedUID := w.z.minLeasedUID + 1 })
      else
        (AssignedIds.mk w.z.minLeasedUID val,
         { w.z with minLeasedUID := val + 1 })
    else
      (AssignedIds.mk w.z.minLeasedUID (w.z.minLeasedUID + val - 1),
       { w.z with minLeasedUID := w.z.minLeasedUID + val })
  match uidLoop wok { w with z := z1 } with
  | (false, w') => (none, w')
  | (true, w') => (some resp, w')

/-- `nextUID` (lines 102-108): a one-element `nextUIDs` request. -/
def nextUID (wok : Bool) (w : World) : Option Nat × World :=
  match nextUIDs wok false 1 w with
  | (none, w') => (none, w')
  | (some r, w') => (some r.StartId, w')

/-- `nextNS` (lines 138-147): increment `lastNS`, then persist; a persistence
failure is returned as an error (with the increment, per the source, already
applied in memory). -/
def nextNS (wok : Bool) (w : World) : Option Nat × World :=
  let w1 : World := { w with z := { w.z with lastNS := w.z.lastNS + 1 } }
  match writeZeroState wok w1 with
  | (false, w') => (none, w')
  | (true, w') => (some w'.z.lastNS, w')

/-- `newZero` (lines 45-77): read the persisted zero state; on a fresh store
start both spaces at the initial reserved values, otherwise prime
`min = max = persisted maximum` for both spaces; then lease both spaces.
Returns the new world plus the `restart` flag, or `none` if a lease fails. -/
def newZero (wokU wokT : Bool) (zs : Option MembershipState) :
    Option (World × Bool) :=
  let z : Zero :=
    match zs with
    | none => ⟨initialUID, initialUID, initialTs, initialTs, 0⟩
    | some s => ⟨s.MaxUID, s.MaxUID, s.MaxTxnTs, s.MaxTxnTs, s.MaxNsID⟩
  let w : World := ⟨z, zs, 0⟩
  match leaseUIDs wokU w with
  | (false, _) => none
  | (true, w1) =>
    match leaseTs wokT w1 with
    | (false, _) => none
    | (true, w2) => some (w2, zs.isSome)

/-! ### Reachable-state invariant -/

/-- Invariant of every reachable lease-manager state: both spaces sit at or
above their initial reserved values, `min ≤ max` in both spaces, and the
durable record holds exactly the in-memory maxima (every operation that moves
a maximum persists it before returning successfully). -/
def Inv (w : World) : Prop :=
  initialUID ≤ w.z.minLeasedUID ∧
  w.z.minLeasedUID ≤ w.z.maxLeasedUID ∧
  initialTs ≤ w.z.minLeasedTs ∧
  w.z.minLeasedTs ≤ w.z.maxLeasedTs ∧
  w.persisted = some ⟨w.z.maxLeasedUID, w.z.maxLeasedTs, w.z.lastNS⟩

/-! ### Characterization lemmas -/

theorem nextTS_true_spec (w : World) (hw : Inv w) :
    ∃ w', nextTS true w = (some w.z.minLeasedTs, w') ∧
      Inv w' ∧
      w'.z.minLeasedTs = w.z.minLeasedTs + 1 ∧
      w'.z.minLeasedUID = w.z.minLeasedUID ∧
      w'.z.maxLeasedUID = w.z.maxLeasedUID ∧
      w'.z.lastNS = w.z.lastNS ∧
      w.z.minLeasedTs < w'.z.maxLeasedTs ∧
      w.writes ≤ w'.writes ∧ w'.writes ≤ w.writes + 1 ∧
      (w.z.maxLeasedTs ≤ w.z.minLeasedTs → w'.writes = w.writes + 1) ∧
      (w.z.minLeasedTs < w.z.maxLeasedTs → w'.writes = w.writes) := by
  obtain ⟨h1, h2, h3, h4, h5⟩ := hw
  by_cases hc : w.z.maxLeasedTs ≤ w.z.minLeasedTs
  · have hlease : ¬ (w.z.minLeasedTs + leaseTsAtATime ≤ w.z.maxLeasedTs) := by
      simp only [leaseTsAtATime]; omega
    have hstep : nextTS true w = (some w.z.minLeasedTs,
        ⟨⟨w.z.minLeasedUID, w.z.maxLeasedUID, w.z.minLeasedTs + 1,
          w.z.maxLeasedTs + (w.z.minLeasedTs + leaseTsAtATime), w.z.lastNS⟩,
         some ⟨w.z.maxLeasedUID, w.z.maxLeasedTs + (w.z.minLeasedTs + leaseTsAtATime),
               w.z.lastNS⟩,
         w.writes + 1⟩) := by
      simp [nextTS, leaseTs, writeZeroState, if_pos hc, if_neg hlease]
    refine ⟨_, hstep, ⟨h1, h2, by dsimp only; omega, ?_, rfl⟩, rfl, rfl, rfl, rfl,
      ?_, ?_, ?_, fun _ => rfl, fun hlt => absurd hlt (by omega)⟩
    · dsimp only; simp only [leaseTsAtATime]; omega
    · dsimp only; simp only [leaseTsAtATime]; omega
    · dsimp only; omega
    · dsimp only; omega
  · push_neg at hc
    have hstep : nextTS true w = (some w.z.minLeasedTs,
        ⟨⟨w.z.minLeasedUID, w.z.maxLeasedUID, w.z.minLeasedTs + 1,
          w.z.maxLeasedTs, w.z.lastNS⟩, w.persisted, w.writes⟩) := by
      simp [nextTS, if_neg (by omega : ¬ w.z.maxLeasedTs ≤ w.z.minLeasedTs)]
    refine ⟨_, hstep, ⟨h1, h2, by dsimp only; omega, by dsimp only; omega,
      by dsimp only; rw [h5]⟩, rfl, rfl, rfl, rfl, by dsimp only; omega,
      le_refl _, by dsimp only; omega, fun hle => absurd hle (by omega), fun _ => rfl⟩

theorem uidLoop_of_lt (wok : Bool) (w : World)
    (h : w.z.minLeasedUID < w.z.maxLeasedUID) :
    uidLoop wok w = (true, w) := by
  rw [uidLoop]
  simp [Nat.not_le.mpr h]

theorem uidLoop_fail (wok : Bool) (w w' : World)
    (hc : w.z.maxLeasedUID ≤ w.z.minLeasedUID)
    (hl : leaseUIDs wok w = (false, w')) :
    uidLoop wok w = (false, w') := by
  rw [uidLoop, if_pos hc]
  split
  · rename_i w2 heq
    rw [hl] at heq
    cases heq
    rfl
  · rename_i w2 heq
    rw [hl] at heq
    cases heq

theorem uidLoop_true_spec (w : World)
    (hper : w.persisted = some ⟨w.z.maxLeasedUID, w.z.maxLeasedTs, w.z.lastNS⟩) :
    ∃ w', uidLoop true w = (true, w') ∧
      w'.z.minLeasedUID = w.z.minLeasedUID ∧
      w'.z.minLeasedTs = w.z.minLeasedTs ∧
      w'.z.maxLeasedTs = w.z.maxLeasedTs ∧
      w'.z.lastNS = w.z.lastNS ∧
      w.z.maxLeasedUID ≤ w'.z.maxLeasedUID ∧
      w.z.minLeasedUID < w'.z.maxLeasedUID ∧
      w'.persisted = some ⟨w'.z.maxLeasedUID, w'.z.maxLeasedTs, w'.z.lastNS⟩ ∧
      w.writes ≤ w'.writes ∧ w'.writes ≤ w.writes + 1 ∧
      (w.z.maxLeasedUID ≤ w.z.minLeasedUID → w'.writes = w.writes + 1) ∧
      (w.z.minLeasedUID < w.z.maxLeasedUID → w'.writes = w.writes) := by
  by_cases hc : w.z.maxLeasedUID ≤ w.z.minLeasedUID
  · have hlease : ¬ (w.z.minLeasedUID + leaseUIDAtATime ≤ w.z.maxLeasedUID) := by
      simp only [leaseUIDAtATime]; omega
    have hstep : leaseUIDs true w = (true,
        ⟨⟨w.z.minLeasedUID, w.z.maxLeasedUID + (w.z.minLeasedUID + leaseUIDAtATime),
          w.z.minLeasedTs, w.z.maxLeasedTs, w.z.lastNS⟩,
         some ⟨w.z.maxLeasedUID + (w.z.minLeasedUID + leaseUIDAtATime),
               w.z.maxLeasedTs, w.z.lastNS⟩,
         w.writes + 1⟩) := by
      simp [leaseUIDs, writeZeroState, if_neg hlease]
    have hlt : (w.z.minLeasedUID : Nat) <
        w.z.maxLeasedUID + (w.z.minLeasedUID + leaseUIDAtATime) := by
      simp only [leaseUIDAtATime]; omega
    have hloop : uidLoop true w = (true,
        ⟨⟨w.z.minLeasedUID, w.z.maxLeasedUID + (w.z.minLeasedUID + leaseUIDAtATime),
          w.z.minLeasedTs, w.z.maxLeasedTs, w.z.lastNS⟩,
         some ⟨w.z.maxLeasedUID + (w.z.minLeasedUID + leaseUIDAtATime),
               w.z.maxLeasedTs, w.z.lastNS⟩,
         w.writes + 1⟩) := by
      rw [uidLoop, if_pos hc]
      split
      · rename_i w' heq
        rw [hstep] at heq
        cases heq
      · rename_i w' heq
        rw [hstep] at heq
        cases heq
        exact uidLoop_of_lt true _ hlt
    refine ⟨_, hloop, rfl, rfl, rfl, rfl, by simp, hlt, rfl, by simp, by simp,
      fun _ => rfl, fun h => absurd h (by omega)⟩
  · push_neg at hc
    refine ⟨w, uidLoop_of_lt true w hc, rfl, rfl, rfl, rfl, le_refl _, hc, hper,
      le_refl _, by omega, fun h => absurd h (by omega), fun _ => rfl⟩

theorem AssignedIds.toList_mem (r : AssignedIds) (m : Nat) (hend : r.EndId + 1 ≤ m)
    (x : Nat) (hx : x ∈ r.toList) : r.StartId ≤ x ∧ x < m := by
  rw [AssignedIds.toList, List.mem_range'_1] at hx
  omega

theorem AssignedIds.toList_pairwise (r : AssignedIds) :
    List.Pairwise (· < ·) r.toList :=
  List.pairwise_lt_range' _ _

theorem nextUIDs_true_spec (w : World) (b : Bool) (v : Nat) (hw : Inv w) :
    ∃ r w', nextUIDs true b v w = (some r, w') ∧
      Inv w' ∧
      r.StartId = w.z.minLeasedUID ∧
      w'.z.minLeasedTs = w.z.minLeasedTs ∧
      w'.z.maxLeasedTs = w.z.maxLeasedTs ∧
      w'.z.lastNS = w.z.lastNS ∧
      w.z.minLeasedUID ≤ w'.z.minLeasedUID ∧
      r.EndId + 1 ≤ w'.z.minLeasedUID ∧
      List.Pairwise (· < ·) r.toList ∧
      (∀ x ∈ r.toList, w.z.minLeasedUID ≤ x ∧ x < w'.z.minLeasedUID) ∧
      w.writes ≤ w'.writes ∧ w'.writes ≤ w.writes + 1 ∧
      (b = false → w.z.maxLeasedUID ≤ w.z.minLeasedUID + v →
        w'.writes = w.writes + 1) ∧
      (b = true → v ≤ w.z.minLeasedUID →
        r.EndId = w.z.minLeasedUID ∧ w'.z.minLeasedUID = w.z.minLeasedUID + 1) ∧
      (b = true → w.z.minLeasedUID < v →
        r.EndId = v ∧ w'.z.minLeasedUID = v + 1) ∧
      (b = false →
        r.EndId = w.z.minLeasedUID + v - 1 ∧
        w'.z.minLeasedUID = w.z.minLeasedUID + v) := by
  obtain ⟨h1, h2, h3, h4, h5⟩ := hw
  simp only [initialUID] at h1
  simp only [initialTs] at h3
  cases b
  · obtain ⟨w', hloop, e1, e2, e3, e4, e5, e6, e7, e8, e9, e10, e11⟩ :=
      uidLoop_true_spec
        ⟨⟨w.z.minLeasedUID + v, w.z.maxLeasedUID, w.z.minLeasedTs,
          w.z.maxLeasedTs, w.z.lastNS⟩, w.persisted, w.writes⟩ h5
    dsimp only at e1 e2 e3 e4 e5 e6 e8 e9 e10 e11
    have hrun : nextUIDs true false v w =
        (some ⟨w.z.minLeasedUID, w.z.minLeasedUID + v - 1⟩, w') := by
      simp only [nextUIDs, if_neg Bool.false_ne_true]
      rw [hloop]
    have hend : (w.z.minLeasedUID + v - 1) + 1 ≤ w'.z.minLeasedUID := by omega
    refine ⟨_, w', hrun, ⟨by simp only [initialUID]; omega, by omega,
      by simp only [initialTs]; omega, by omega, e7⟩, rfl, e2, e3, e4,
      by omega, hend, AssignedIds.toList_pairwise _,
      fun x hx => AssignedIds.toList_mem _ _ hend x hx, by omega, by omega,
      fun _ hle => e10 hle, by simp, by simp, fun _ => ⟨rfl, by omega⟩⟩
  · by_cases hv : v ≤ w.z.minLeasedUID
    · obtain ⟨w', hloop, e1, e2, e3, e4, e5, e6, e7, e8, e9, e10, e11⟩ :=
        uidLoop_true_spec
          ⟨⟨w.z.minLeasedUID + 1, w.z.maxLeasedUID, w.z.minLeasedTs,
            w.z.maxLeasedTs, w.z.lastNS⟩, w.persisted, w.writes⟩ h5
      dsimp only at e1 e2 e3 e4 e5 e6 e8 e9 e10 e11
      have hrun : nextUIDs true true v w =
          (some ⟨w.z.minLeasedUID, w.z.minLeasedUID⟩, w') := by
        simp only [nextUIDs, hv, eq_self_iff_true, if_true]
        rw [hloop]
      have hend : w.z.minLeasedUID + 1 ≤ w'.z.minLeasedUID := by omega
      refine ⟨_, w', hrun, ⟨by simp only [initialUID]; omega, by omega,
        by simp only [initialTs]; omega, by omega, e7⟩, rfl, e2, e3, e4,
        by omega, hend, AssignedIds.toList_pairwise _,
        fun x hx => AssignedIds.toList_mem _ _ hend x hx, by omega, by omega,
        by simp, fun _ _ => ⟨rfl, by omega⟩,
        fun _ hlt => absurd hv (by omega), by simp⟩
    · push_neg at hv
      obtain ⟨w', hloop, e1, e2, e3, e4, e5, e6, e7, e8, e9, e10, e11⟩ :=
        uidLoop_true_spec
          ⟨⟨v + 1, w.z.maxLeasedUID, w.z.minLeasedTs,
            w.z.maxLeasedTs, w.z.lastNS⟩, w.persisted, w.writes⟩ h5
      dsimp only at e1 e2 e3 e4 e5 e6 e8 e9 e10 e11
      have hrun : nextUIDs true true v w =
          (some ⟨w.z.minLeasedUID, v⟩, w') := by
        simp only [nextUIDs, if_neg (by omega : ¬ v ≤ w.z.minLeasedUID),
          eq_self_iff_true, if_true]
        rw [hloop]
      have hend : v + 1 ≤ w'.z.minLeasedUID := by omega
      refine ⟨_, w', hrun, ⟨by simp only [initialUID]; omega, by omega,
        by simp only [initialTs]; omega, by omega, e7⟩, rfl, e2, e3, e4,
        by omega, hend, AssignedIds.toList_pairwise _,
        fun x hx => AssignedIds.toList_mem _ _ hend x hx, by omega, by omega,
        by simp, fun _ hle => absurd hle (by omega),
        fun _ _ => ⟨rfl, by omega⟩, by simp⟩

theorem nextNS_true_spec (w : World) (hw : Inv w) :
    ∃ w', nextNS true w = (some (w.z.lastNS + 1), w') ∧
      Inv w' ∧ w'.z = { w.z with lastNS := w.z.lastNS + 1 } ∧
      w'.writes = w.writes + 1 := by
  obtain ⟨h1, h2, h3, h4, h5⟩ := hw
  have hstep : nextNS true w = (some (w.z.lastNS + 1),
      ⟨⟨w.z.minLeasedUID, w.z.maxLeasedUID, w.z.minLeasedTs, w.z.maxLeasedTs,
        w.z.lastNS + 1⟩,
       some ⟨w.z.maxLeasedUID, w.z.maxLeasedTs, w.z.lastNS + 1⟩,
       w.writes + 1⟩) := by
    simp [nextNS, writeZeroState]
  exact ⟨_, hstep, ⟨h1, h2, h3, h4, rfl⟩, rfl, rfl⟩

/-- `newZero` on an existing persisted record: both spaces are primed at
`min = max = persisted maximum`, then each space is leased once (the batch is
exhausted by construction), leaving `min` at the persisted maximum. -/
theorem newZero_restart_spec (s : MembershipState) :
    newZero true true (some s) =
      some (⟨⟨s.MaxUID, s.MaxUID + (s.MaxUID + leaseUIDAtATime),
              s.MaxTxnTs, s.MaxTxnTs + (s.MaxTxnTs + leaseTsAtATime), s.MaxNsID⟩,
             some ⟨s.MaxUID + (s.MaxUID + leaseUIDAtATime),
                   s.MaxTxnTs + (s.MaxTxnTs + leaseTsAtATime), s.MaxNsID⟩, 2⟩,
            true) := by
  have hU : ¬ (s.MaxUID + leaseUIDAtATime ≤ s.MaxUID) := by
    simp only [leaseUIDAtATime]; omega
  have hT : ¬ (s.MaxTxnTs + leaseTsAtATime ≤ s.MaxTxnTs) := by
    simp only [leaseTsAtATime]; omega
  simp [newZero, leaseUIDs, leaseTs, writeZeroState, hU, hT]

/-- The world produced by a fresh start (`newZero` on an empty store). -/
def w0 : World := ⟨⟨2, 10004, 3, 10006, 0⟩, some ⟨10004, 10006, 0⟩, 2⟩

theorem newZero_fresh : newZero true true none = some (w0, false) := rfl

theorem Inv_w0 : Inv w0 := by
  refine ⟨?_, ?_, ?_, ?_, rfl⟩ <;> decide

/-! ### Traces of lease-manager operations -/

/-- The operations a client may perform against the lease manager, including
a process restart (which re-runs `newZero` against the persisted record). -/
inductive Op where
  | nextTsOp
  | nextUidOp
  | nextUidsOp (bump : Bool) (val : Nat)
  | nextNsOp
  | restartOp
deriving Repr, DecidableEq

/-- One successful operation: the UID values handed out, the timestamp values
handed out, and the successor world.  All persistence calls succeed (`none`
means the operation failed, which cannot happen on the all-success oracle). -/
def step (w : World) : Op → Option (List Nat × List Nat × World)
  | .nextTsOp =>
    match nextTS true w with
    | (some t, w') => some ([], [t], w')
    | (none, _) => none
  | .nextUidOp =>
    match nextUID true w with
    | (some u, w') => some ([u], [], w')
    | (none, _) => none
  | .nextUidsOp b v =>
    match nextUIDs true b v w with
    | (some r, w') => some (r.toList, [], w')
    | (none, _) => none
  | .nextNsOp =>
    match nextNS true w with
    | (some _, w') => some ([], [], w')
    | (none, _) => none
  | .restartOp =>
    match newZero true true w.persisted with
    | some (w', _) => some ([], [], w')
    | none => none

/-- Run a whole trace, concatenating the handed-out values in order. -/
def runTrace (w : World) : List Op → Option (List Nat × List Nat × World)
  | [] => some ([], [], w)
  | op :: ops =>
    match step w op with
    | none => none
    | some (us1, vs1, w1) =>
      match runTrace w1 ops with
      | none => none
      | some (us2, vs2, w2) => some (us1 ++ us2, vs1 ++ vs2, w2)

theorem step_sound (w : World) (op : Op) (us vs : List Nat) (w' : World)
    (hw : Inv w) (h : step w op = some (us, vs, w')) :
    Inv w' ∧
    w.z.minLeasedUID ≤ w'.z.minLeasedUID ∧
    w.z.minLeasedTs ≤ w'.z.minLeasedTs ∧
    List.Pairwise (· < ·) us ∧
    (∀ x ∈ us, w.z.minLeasedUID ≤ x ∧ x < w'.z.minLeasedUID) ∧
    List.Pairwise (· < ·) vs ∧
    (∀ x ∈ vs, w.z.minLeasedTs ≤ x ∧ x < w'.z.minLeasedTs) := by
  cases op
  case nextTsOp =>
    obtain ⟨w1, hs, hInv, m1, m2, m3, m4, m5, _⟩ := nextTS_true_spec w hw
    simp only [step] at h
    rw [hs] at h
    simp only [Option.some.injEq, Prod.mk.injEq] at h
    obtain ⟨rfl, rfl, rfl⟩ := h
    refine ⟨hInv, by omega, by omega, List.Pairwise.nil, by simp,
      List.pairwise_singleton _ _, ?_⟩
    intro x hx
    simp only [List.mem_singleton] at hx
    subst hx
    omega
  case nextUidOp =>
    obtain ⟨r, w1, hs, hInv, e1, e2, e3, e4, e5, e6, _, e8, _, _, _, _, _, e13⟩ :=
      nextUIDs_true_spec w false 1 hw
    obtain ⟨hEnd, hMin⟩ := e13 rfl
    simp only [step, nextUID] at h
    rw [hs] at h
    simp only [Option.some.injEq, Prod.mk.injEq] at h
    obtain ⟨rfl, rfl, rfl⟩ := h
    refine ⟨hInv, e5, by omega, List.pairwise_singleton _ _, ?_,
      List.Pairwise.nil, by simp⟩
    intro x hx
    simp only [List.mem_singleton] at hx
    subst hx
    rw [e1]
    omega
  case nextUidsOp b v =>
    obtain ⟨r, w1, hs, hInv, e1, e2, e3, e4, e5, e6, e7, e8, _⟩ :=
      nextUIDs_true_spec w b v hw
    simp only [step] at h
    rw [hs] at h
    simp only [Option.some.injEq, Prod.mk.injEq] at h
    obtain ⟨rfl, rfl, rfl⟩ := h
    exact ⟨hInv, e5, by omega, e7, e8, List.Pairwise.nil, by simp⟩
  case nextNsOp =>
    obtain ⟨w1, hs, hInv, hz, _⟩ := nextNS_true_spec w hw
    simp only [step] at h
    rw [hs] at h
    simp only [Option.some.injEq, Prod.mk.injEq] at h
    obtain ⟨rfl, rfl, rfl⟩ := h
    rw [hz]
    exact ⟨hInv, le_refl _, le_refl _, List.Pairwise.nil, by simp,
      List.Pairwise.nil, by simp⟩
  case restartOp =>
    obtain ⟨h1, h2, h3, h4, h5⟩ := hw
    simp only [step, h5, newZero_restart_spec, Option.some.injEq, Prod.mk.injEq] at h
    obtain ⟨rfl, rfl, rfl⟩ := h
    refine ⟨⟨by dsimp only; omega, ?_, by dsimp only; omega, ?_, rfl⟩,
      by dsimp only; omega, by dsimp only; omega, List.Pairwise.nil, by simp,
      List.Pairwise.nil, by simp⟩
    · dsimp only; simp only [leaseUIDAtATime]; omega
    · dsimp only; simp only [leaseTsAtATime]; omega

theorem runTrace_sound (ops : List Op) (w : World) (us vs : List Nat) (w' : World)
    (hw : Inv w) (h : runTrace w ops = some (us, vs, w')) :
    Inv w' ∧
    w.z.minLeasedUID ≤ w'.z.minLeasedUID ∧
    w.z.minLeasedTs ≤ w'.z.minLeasedTs ∧
    List.Pairwise (· < ·) us ∧
    (∀ x ∈ us, w.z.minLeasedUID ≤ x ∧ x < w'.z.minLeasedUID) ∧
    List.Pairwise (· < ·) vs ∧
    (∀ x ∈ vs, w.z.minLeasedTs ≤ x ∧ x < w'.z.minLeasedTs) := by
  induction ops generalizing w us vs w' with
  | nil =>
    simp only [runTrace, Option.some.injEq, Prod.mk.injEq] at h
    obtain ⟨rfl, rfl, rfl⟩ := h
    exact ⟨hw, le_refl _, le_refl _, List.Pairwise.nil, by simp,
      List.Pairwise.nil, by simp⟩
  | cons op ops ih =>
    simp only [runTrace] at h
    split at h
    · cases h
    · rename_i us1 vs1 w1 hs
      split at h
      · cases h
      · rename_i us2 vs2 w2 hr
        simp only [Option.some.injEq, Prod.mk.injEq] at h
        obtain ⟨rfl, rfl, rfl⟩ := h
        obtain ⟨I1, m1, t1, p1, b1, q1, c1⟩ := step_sound w op us1 vs1 w1 hw hs
        obtain ⟨I2, m2, t2, p2, b2, q2, c2⟩ := ih w1 us2 vs2 w2 I1 hr
        refine ⟨I2, le_trans m1 m2, le_trans t1 t2, ?_, ?_, ?_, ?_⟩
        · refine List.pairwise_append.mpr ⟨p1, p2, fun a ha c hc => ?_⟩
          exact lt_of_lt_of_le (b1 a ha).2 (b2 c hc).1
        · intro x hx
          rcases List.mem_append.mp hx with hx1 | hx2
          · obtain ⟨ha, hb⟩ := b1 x hx1
            exact ⟨ha, lt_of_lt_of_le hb m2⟩
          · obtain ⟨ha, hb⟩ := b2 x hx2
            exact ⟨le_trans m1 ha, hb⟩
        · refine List.pairwise_append.mpr ⟨q1, q2, fun a ha c hc => ?_⟩
          exact lt_of_lt_of_le (c1 a ha).2 (c2 c hc).1
        · intro x hx
          rcases List.mem_append.mp hx with hx1 | hx2
          · obtain ⟨ha, hb⟩ := c1 x hx1
            exact ⟨ha, lt_of_lt_of_le hb t2⟩
          · obtain ⟨ha, hb⟩ := c2 x hx2
            exact ⟨le_trans t1 ha, hb⟩

/-! ### Claim C1 -/

/-- C1: For every sequence of successful nextUID/nextUIDs and nextTS calls on
the lease manager, the UID values returned are strictly increasing and never
repeat, and the timestamp values returned are strictly increasing and never
repeat, including across a restart in which newZero reloads persisted zero
state and initializes min = max = the persisted maximum for both the UID and
timestamp spaces.  (Strict pairwise increase of the handed-out sequences,
over any trace starting from a fresh `newZero` and containing arbitrary
restarts; `Op.restartOp` re-runs `newZero` on the persisted record.) -/
theorem nextUID_nextTS_strictly_increasing (ops : List Op) (winit : World)
    (restart : Bool) (us vs : List Nat) (w' : World)
    (h0 : newZero true true none = some (winit, restart))
    (h : runTrace winit ops = some (us, vs, w')) :
    List.Pairwise (· < ·) us ∧ List.Pairwise (· < ·) vs := by
  rw [newZero_fresh] at h0
  simp only [Option.some.injEq, Prod.mk.injEq] at h0
  obtain ⟨rfl, -⟩ := h0
  obtain ⟨-, -, -, p, -, q, -⟩ := runTrace_sound ops w0 us vs w' Inv_w0 h
  exact ⟨p, q⟩

/-- Witness for C1: a concrete five-operation trace spanning a restart. -/
theorem nextUID_nextTS_strictly_increasing_witness :
    List.Pairwise (· < ·) [2, 10004] ∧ List.Pairwise (· < ·) [3, 10006] :=
  nextUID_nextTS_strictly_increasing
    [Op.nextUidOp, Op.nextTsOp, Op.restartOp, Op.nextUidOp, Op.nextTsOp]
    w0 false [2, 10004] [3, 10006]
    ⟨⟨10005, 30008, 10007, 30012, 0⟩, some ⟨30008, 30012, 0⟩, 2⟩
    newZero_fresh
    (by simp [runTrace, step, nextUID, nextUIDs, uidLoop, nextTS, leaseTs,
      leaseUIDs, writeZeroState, newZero, w0, AssignedIds.toList,
      leaseUIDAtATime, leaseTsAtATime])

/-! ### Claim C2 -/

/-- C2: Whenever nextUID/nextUIDs or nextTS returns successfully, every
identifier or timestamp in the returned range is covered by a lease batch
whose LeaseState was durably persisted before the call returned (the
persisted maximum at return strictly bounds every returned value), and at
most one lease extension happens per call, with exactly one persisted
extension when the request does not fit in the current batch. -/
theorem lease_durable_before_handout (w : World) (hw : Inv w) :
    (∀ t w', nextTS true w = (some t, w') →
      ∃ p, w'.persisted = some p ∧ t < p.MaxTxnTs ∧
        w'.writes ≤ w.writes + 1 ∧
        (w.z.maxLeasedTs ≤ w.z.minLeasedTs → w'.writes = w.writes + 1)) ∧
    (∀ b v r w', nextUIDs true b v w = (some r, w') →
      ∃ p, w'.persisted = some p ∧ (∀ x ∈ r.toList, x < p.MaxUID) ∧
        w'.writes ≤ w.writes + 1 ∧
        (b = false → w.z.maxLeasedUID ≤ w.z.minLeasedUID + v →
          w'.writes = w.writes + 1)) := by
  constructor
  · intro t w' hcall
    obtain ⟨w1, hs, hInv, e1, e2, e3, e4, e5, g1, g2, g3, g4⟩ := nextTS_true_spec w hw
    rw [hs] at hcall
    simp only [Prod.mk.injEq, Option.some.injEq] at hcall
    obtain ⟨rfl, rfl⟩ := hcall
    obtain ⟨i1, i2, i3, i4, i5⟩ := hInv
    exact ⟨_, i5, by dsimp only; omega, g2, g3⟩
  · intro b v r w' hcall
    obtain ⟨r1, w1, hs, hInv, e2, e3, e4, e5, e6, e7, e8, e9, e10, e11, e12,
      e13, e14, e15⟩ := nextUIDs_true_spec w b v hw
    rw [hs] at hcall
    simp only [Prod.mk.injEq, Option.some.injEq] at hcall
    obtain ⟨rfl, rfl⟩ := hcall
    obtain ⟨i1, i2, i3, i4, i5⟩ := hInv
    refine ⟨_, i5, ?_, e11, e12⟩
    intro x hx
    dsimp only
    exact lt_of_lt_of_le (e9 x hx).2 i2

/-- Witness for C2: the timestamp handed out by nextTS at the fresh world is
strictly below the persisted maximum at return. -/
theorem lease_durable_before_handout_witness :
    ∃ p, (⟨⟨2, 10004, 4, 10006, 0⟩, some ⟨10004, 10006, 0⟩, 2⟩ : World).persisted
        = some p ∧
      3 < p.MaxTxnTs ∧
      (⟨⟨2, 10004, 4, 10006, 0⟩, some ⟨10004, 10006, 0⟩, 2⟩ : World).writes
        ≤ w0.writes + 1 ∧
      (w0.z.maxLeasedTs ≤ w0.z.minLeasedTs →
        (⟨⟨2, 10004, 4, 10006, 0⟩, some ⟨10004, 10006, 0⟩, 2⟩ : World).writes
          = w0.writes + 1) :=
  (lease_durable_before_handout w0 Inv_w0).1 3
    ⟨⟨2, 10004, 4, 10006, 0⟩, some ⟨10004, 10006, 0⟩, 2⟩
    (by simp [nextTS, w0])

/-! ### Claim C3 -/

/-- C3 counterexample: from the reachable world `w0` (persisted record
`{MaxUID 10004, MaxTxnTs 10006, MaxNsID 0}`), a failing persistence call
during `nextNS` leaves `lastNS = 1` in memory (not the durably recorded 0),
and a failing persistence during the lease extension triggered by
`nextUIDs false false 10002` leaves `maxLeasedUID = 30008` in memory (not the
durably recorded 10004): the in-memory counters are NOT left at their last
durably recorded values. -/
theorem lease_counters_rollback_counterexample :
    (nextNS false w0).1 = none ∧
    (nextNS false w0).2.z.lastNS = 1 ∧
    (nextNS false w0).2.persisted = some ⟨10004, 10006, 0⟩ ∧
    ¬ (nextNS false w0).2.z.lastNS = 0 ∧
    (nextUIDs false false 10002 w0).1 = none ∧
    (nextUIDs false false 10002 w0).2.z.maxLeasedUID = 30008 ∧
    (nextUIDs false false 10002 w0).2.persisted = some ⟨10004, 10006, 0⟩ ∧
    ¬ (nextUIDs false false 10002 w0).2.z.maxLeasedUID = 10004 := by
  have h2 : uidLoop false ⟨⟨10004, 10004, 3, 10006, 0⟩, some ⟨10004, 10006, 0⟩, 2⟩
      = (false, ⟨⟨10004, 30008, 3, 10006, 0⟩, some ⟨10004, 10006, 0⟩, 2⟩) :=
    uidLoop_fail false _ _ (by decide) (by decide)
  have h3 : nextUIDs false false 10002 w0
      = (none, ⟨⟨10004, 30008, 3, 10006, 0⟩, some ⟨10004, 10006, 0⟩, 2⟩) := by
    simp [nextUIDs, w0, h2]
  refine ⟨?_, ?_, ?_, ?_, ?_, ?_, ?_, ?_⟩
  · simp [nextNS, writeZeroState, w0]
  · simp [nextNS, writeZeroState, w0]
  · simp [nextNS, writeZeroState, w0]
  · simp [nextNS, writeZeroState, w0]
  · simp [h3]
  · simp [h3]
  · simp [h3]
  · simp [h3]

/-- C3 amended: if the persistence call fails during a lease extension or
during nextNS, the enclosing call returns an error, but the in-memory
counters are NOT restored to the last durably recorded values: the advanced
maximum (respectively the incremented lastNS) is kept in memory while the
durable record is unchanged, and a subsequent retry of the lease succeeds
immediately as a no-op without persisting anything (it does not re-attempt
the batch boundary). -/
theorem lease_persist_failure_not_rolled_back (w : World) :
    (∀ w', w.z.maxLeasedUID < w.z.minLeasedUID + leaseUIDAtATime →
      leaseUIDs false w = (false, w') →
      w'.z.maxLeasedUID = w.z.maxLeasedUID + (w.z.minLeasedUID + leaseUIDAtATime) ∧
      w'.persisted = w.persisted ∧
      leaseUIDs true w' = (true, w')) ∧
    (∀ w', w.z.maxLeasedTs < w.z.minLeasedTs + leaseTsAtATime →
      leaseTs false w = (false, w') →
      w'.z.maxLeasedTs = w.z.maxLeasedTs + (w.z.minLeasedTs + leaseTsAtATime) ∧
      w'.persisted = w.persisted ∧
      leaseTs true w' = (true, w')) ∧
    (∀ w', nextNS false w = (none, w') →
      w'.z.lastNS = w.z.lastNS + 1 ∧ w'.persisted = w.persisted) := by
  refine ⟨?_, ?_, ?_⟩
  · intro w' hlt hcall
    have hc : ¬ (w.z.minLeasedUID + leaseUIDAtATime ≤ w.z.maxLeasedUID) := by omega
    simp only [leaseUIDs, writeZeroState, if_neg hc, if_neg Bool.false_ne_true,
      Prod.mk.injEq, true_and] at hcall
    subst hcall
    refine ⟨rfl, rfl, ?_⟩
    simp only [leaseUIDs]
    rw [if_pos]
    dsimp only
    omega
  · intro w' hlt hcall
    have hc : ¬ (w.z.minLeasedTs + leaseTsAtATime ≤ w.z.maxLeasedTs) := by omega
    simp only [leaseTs, writeZeroState, if_neg hc, if_neg Bool.false_ne_true,
      Prod.mk.injEq, true_and] at hcall
    subst hcall
    refine ⟨rfl, rfl, ?_⟩
    simp only [leaseTs]
    rw [if_pos]
    dsimp only
    omega
  · intro w' hcall
    simp only [nextNS, writeZeroState, if_neg Bool.false_ne_true,
      Prod.mk.injEq, true_and] at hcall
    subst hcall
    exact ⟨rfl, rfl⟩

/-- Witness for C3 amended: a failed UID lease extension from an exhausted
batch keeps the advanced maximum in memory and the retry is a no-op. -/
theorem lease_persist_failure_not_rolled_back_witness :
    (⟨⟨10004, 30008, 3, 10006, 0⟩, some ⟨10004, 10006, 0⟩, 2⟩ : World).z.maxLeasedUID
      = (⟨⟨10004, 10004, 3, 10006, 0⟩, some ⟨10004, 10006, 0⟩, 2⟩ : World).z.maxLeasedUID
        + ((⟨⟨10004, 10004, 3, 10006, 0⟩, some ⟨10004, 10006, 0⟩, 2⟩ : World).z.minLeasedUID
           + leaseUIDAtATime) ∧
    (⟨⟨10004, 30008, 3, 10006, 0⟩, some ⟨10004, 10006, 0⟩, 2⟩ : World).persisted
      = (⟨⟨10004, 10004, 3, 10006, 0⟩, some ⟨10004, 10006, 0⟩, 2⟩ : World).persisted ∧
    leaseUIDs true ⟨⟨10004, 30008, 3, 10006, 0⟩, some ⟨10004, 10006, 0⟩, 2⟩
      = (true, ⟨⟨10004, 30008, 3, 10006, 0⟩, some ⟨10004, 10006, 0⟩, 2⟩) :=
  (lease_persist_failure_not_rolled_back
      ⟨⟨10004, 10004, 3, 10006, 0⟩, some ⟨10004, 10006, 0⟩, 2⟩).1
    ⟨⟨10004, 30008, 3, 10006, 0⟩, some ⟨10004, 10006, 0⟩, 2⟩
    (by decide) (by decide)

/-! ### Claim C4 -/

/-- C4 (code bug): the claim and the source comment say each lease extension
advances the maximum by the batch constant 10000, but `leaseUIDs`/`leaseTs`
execute `max += min + 10000`: from the fresh state with min = max = 2 (UID
space) the new maximum is 10004, not 2 + 10000 = 10002; from the fresh state
with min = max = 3 (timestamp space) it is 10006, not 10003. -/
theorem lease_batch_size_failing :
    leaseUIDs true ⟨⟨2, 2, 3, 3, 0⟩, none, 0⟩ =
      (true, ⟨⟨2, 10004, 3, 3, 0⟩, some ⟨10004, 3, 0⟩, 1⟩) ∧
    (10004 : Nat) ≠ 2 + leaseUIDAtATime ∧
    leaseTs true ⟨⟨2, 2, 3, 3, 0⟩, none, 0⟩ =
      (true, ⟨⟨2, 2, 3, 10006, 0⟩, some ⟨2, 10006, 0⟩, 1⟩) ∧
    (10006 : Nat) ≠ 3 + leaseTsAtATime := by decide

/-! ### Claim C5 -/

/-- C5: For nextUIDs called in bump mode with requested floor value V: if V
is below the current minLeasedUID, a single id is issued with
StartId = EndId = minLeasedUID and minLeasedUID advances by one; otherwise
the returned range is [minLeasedUID, V] and minLeasedUID becomes V + 1. -/
theorem nextUIDs_bump_semantics (w : World) (hw : Inv w) (v : Nat)
    (r : AssignedIds) (w' : World)
    (h : nextUIDs true true v w = (some r, w')) :
    (v < w.z.minLeasedUID →
      r.StartId = w.z.minLeasedUID ∧ r.EndId = w.z.minLeasedUID ∧
      w'.z.minLeasedUID = w.z.minLeasedUID + 1) ∧
    (w.z.minLeasedUID ≤ v →
      r.StartId = w.z.minLeasedUID ∧ r.EndId = v ∧
      w'.z.minLeasedUID = v + 1) := by
  obtain ⟨r1, w1, hs, hInv, e2, e3, e4, e5, e6, e7, e8, e9, e10, e11, e12,
    e13, e14, e15⟩ := nextUIDs_true_spec w true v hw
  rw [hs] at h
  simp only [Prod.mk.injEq, Option.some.injEq] at h
  obtain ⟨rfl, rfl⟩ := h
  constructor
  · intro hlt
    obtain ⟨hE, hM⟩ := e13 rfl (le_of_lt hlt)
    exact ⟨e2, hE, hM⟩
  · intro hle
    rcases eq_or_lt_of_le hle with heq | hlt
    · obtain ⟨hE, hM⟩ := e13 rfl (le_of_eq heq.symm)
      exact ⟨e2, hE.trans heq, by omega⟩
    · obtain ⟨hE, hM⟩ := e14 rfl hlt
      exact ⟨e2, hE, hM⟩

/-- Witness for C5: bumping to floor 1 below the fresh minimum 2 issues the
single id 2 and advances the minimum to 3. -/
theorem nextUIDs_bump_semantics_witness :
    (⟨2, 2⟩ : AssignedIds).StartId = w0.z.minLeasedUID ∧
    (⟨2, 2⟩ : AssignedIds).EndId = w0.z.minLeasedUID ∧
    (⟨⟨3, 10004, 3, 10006, 0⟩, some ⟨10004, 10006, 0⟩, 2⟩ : World).z.minLeasedUID
      = w0.z.minLeasedUID + 1 :=
  (nextUIDs_bump_semantics w0 Inv_w0 1 ⟨2, 2⟩
      ⟨⟨3, 10004, 3, 10006, 0⟩, some ⟨10004, 10006, 0⟩, 2⟩
      (by simp [nextUIDs, uidLoop, w0])).1 (by decide)

/-! ### Typed object API (src/api.go, src/config.go, src/api_types.go)

The Dgraph engine, the JSON decoding layer (`api/utils`,
`MapDynamicToFinal`) and the `api/dql_query` builders are external to the
sources under verification; they enter the model as oracle parameters or,
where a claim depends on them, as definitions modelled from the spec and
flagged as such in their doc comments. -/

/-- The distinguished error values surfaced by the API layer. -/
inductive Err where
  | closedDB
  | namespaceNotFound
  | noObjFound
  | constraintNotDefined (key : String)
  | leaseError
  | encodeError
  | edgesError
  | alterSchemaError
  | expandEdgesError
  | applyMutationsError
  | applyCommittedError
  | queryError
  | decodeError
deriving Repr, DecidableEq

/-- A reflected Go value, as far as the `Create` Gid-stamping code inspects
it: `reflect.Kind() == reflect.Uint64` is `isU64`. -/
inductive GoVal where
  | u64 (n : Nat)
  | str (s : String)
  | int (n : Int)
  | boolean (b : Bool)
  | other
deriving Repr, DecidableEq

/-- A struct field as seen through reflection: its name, whether
`CanSet()` holds (exported field reached through a settable value), and its
value. -/
structure GoField where
  name : String
  settable : Bool
  val : GoVal
deriving Repr, DecidableEq

/-- A struct-shaped Go object: an ordered list of named fields. -/
structure GoObject where
  fields : List GoField
deriving Repr, DecidableEq

def GoVal.isU64 : GoVal → Bool
  | .u64 _ => true
  | _ => false

/-- The Gid-stamping step of `Create` (src/api.go lines 110-116):
`v.FieldByName("Gid")` followed by `IsValid && CanSet && Kind == Uint64`
guarding `SetUint(gid)`.  Go struct field names are unique, so updating
every field passing the guard coincides with updating the one found by
`FieldByName`. -/
def setGidField (obj : GoObject) (gid : Nat) : GoObject :=
  ⟨obj.fields.map fun f =>
    if f.name = "Gid" ∧ f.settable = true ∧ f.val.isU64 = true then
      { f with val := .u64 gid }
    else f⟩

/-- Whether the object has a field passing the Gid-stamping guard. -/
def hasGidField (obj : GoObject) : Bool :=
  obj.fields.any fun f => f.name == "Gid" && f.settable && f.val.isU64

/-- An ad hoc unique-lookup key (src/api_types.go lines 32-35); the `any`
value is carried as its string rendering, which is all the embedded control
flow inspects. -/
structure ConstrainedField where
  Key : String
  Value : String
deriving Repr, DecidableEq

/-- The two instantiations of the `UniqueField` generic interface
(src/api_types.go lines 29-31): a raw uint64 gid or a ConstrainedField. -/
inductive UniqueFieldArg where
  | uid (gid : Nat)
  | cf (c : ConstrainedField)
deriving Repr, DecidableEq

/-- The `cf.Key` used by the constraint check in `executeGetWithObject`: the
Go code declares `var cf ConstrainedField` (zero value, `Key = ""`) and only
assigns it in the ConstrainedField branch. -/
def argKey : UniqueFieldArg → String
  | .uid _ => ""
  | .cf c => c.Key

/-- Modelled from the spec: `utils.GetFieldTags` is not among the sources
under verification.  Per spec sections 3 (TypedObject) and 4.2
(SchemaResolver), field introspection derives, for every declared field of a
typed object, its predicate mapping and its declared constraint kind; the
constraint entry is the empty string when the field carries no uniqueness
constraint.  `fieldConstraints` lists the declared fields (by json tag) with
their constraint kinds. -/
structure TypeDesc where
  name : String
  fieldConstraints : List (String × String)
deriving Repr, DecidableEq

/-- The `jsonToDbTag` lookup: `some c` is a non-nil `*DbTag` with
`Constraint = c`; `none` is a nil entry (key not a declared field). -/
def TypeDesc.jsonToDbTag (t : TypeDesc) (key : String) : Option String :=
  t.fieldConstraints.lookup key

/-- The query/decode phase of `executeGetWithObject` (src/config.go lines
144-184): run the query (`respE` is the engine plus JSON-unmarshal outcome,
as a list of matched objects), fail with the distinguished no-object error on
zero results, otherwise decode the first object (`decode` stands for
`MapDynamicToFinal` and the final type conversion). -/
def executeGetQueryPhase (respE : Except Err (List GoObject))
    (decode : GoObject → Except Err (Nat × GoObject)) :
    Except Err (Nat × GoObject) :=
  match respE with
  | .error e => .error e
  | .ok objs =>
    match objs with
    | [] => .error .noObjFound
    | o :: _ => decode o

/-- `executeGetWithObject` (src/config.go lines 113-185): after building the
query for the gid or constrained-field argument, reject a constrained key
whose declared db tag carries no constraint (`jsonToDbTag[cf.Key] != nil &&
Constraint == ""`), then query and decode. -/
def executeGetWithObject (t : TypeDesc) (arg : UniqueFieldArg)
    (respE : Except Err (List GoObject))
    (decode : GoObject → Except Err (Nat × GoObject)) :
    Except Err (Nat × GoObject) :=
  match t.jsonToDbTag (argKey arg) with
  | some c =>
    if c = "" then .error (.constraintNotDefined (argKey arg))
    else executeGetQueryPhase respE decode
  | none => executeGetQueryPhase respE decode

/-- The database handle: the open flag, the lease-manager world, and the
namespace registry. -/
structure DB where
  isOpen : Bool
  zw : World
  namespaces : List Nat
  defaultNamespace : Nat
deriving Repr, DecidableEq

structure Namespace where
  id : Nat
deriving Repr, DecidableEq

/-- Modelled from the spec: `getNamespaceWithLock` is not among the sources
under verification (only its callers are).  Per spec section 7
(closed-resource errors), operations attempted after the handle is closed
fail immediately with the distinguished closed error before touching the
engine; the namespace lookup otherwise resolves the id in the registry. -/
def getNamespaceWithLock (db : DB) (nsID : Nat) : Except Err Namespace :=
  if db.isOpen = false then .error .closedDB
  else if nsID ∈ db.namespaces then .ok ⟨nsID⟩
  else .error .namespaceNotFound

/-- `getDefaultNamespace` (src/api.go lines 33-42): apply the namespace
option over the default, then resolve it. -/
def getDefaultNamespace (db : DB) (opts : Option Nat) : Except Err Namespace :=
  getNamespaceWithLock db (opts.getD db.defaultNamespace)

/-- The engine calls `Create` can issue, recorded in order as a ghost trace. -/
inductive EngineCall where
  | alterSchema
  | applyMutations
  | applyCommitted
deriving Repr, DecidableEq

/-- Success/failure oracles for the external calls made by `Create`:
object encoding (`generateCreateDqlMutationAndSchema`), edge conversion
(`query.ToDirectedEdges`), schema alteration, edge expansion, mutation
application, commit application, and lease persistence. -/
structure EngineBehavior where
  leaseOk : Bool
  encodeOk : Bool
  edgesOk : Bool
  alterOk : Bool
  expandOk : Bool
  applyOk : Bool
  commitOk : Bool
deriving Repr, DecidableEq

/-- `Create` (src/api.go lines 44-119), in source order: resolve the
namespace, allocate a gid, encode the object, convert edges, alter the
schema, check `isOpen`, draw the start and commit timestamps, expand edges,
apply the mutation, apply the commit, then stamp the gid back into the
object.  The returned triple carries the result, the updated handle and the
trace of engine calls issued. -/
def Create (eng : EngineBehavior) (db : DB) (opts : Option Nat)
    (object : GoObject) :
    Except Err (Nat × GoObject) × DB × List EngineCall :=
  match getDefaultNamespace db opts with
  | .error e => (.error e, db, [])
  | .ok _ =>
    match nextUID eng.leaseOk db.zw with
    | (none, w1) => (.error .leaseError, { db with zw := w1 }, [])
    | (some gid, w1) =>
      let db1 : DB := { db with zw := w1 }
      if eng.encodeOk = false then (.error .encodeError, db1, [])
      else if eng.edgesOk = false then (.error .edgesError, db1, [])
      else if eng.alterOk = false then
        (.error .alterSchemaError, db1, [.alterSchema])
      else if db1.isOpen = false then (.error .closedDB, db1, [.alterSchema])
      else
        match nextTS eng.leaseOk db1.zw with
        | (none, w2) => (.error .leaseError, { db1 with zw := w2 }, [.alterSchema])
        | (some _, w2) =>
          match nextTS eng.leaseOk w2 with
          | (none, w3) =>
            (.error .leaseError, { db1 with zw := w3 }, [.alterSchema])
          | (some _, w3) =>
            let db2 : DB := { db1 with zw := w3 }
            if eng.expandOk = false then
              (.error .expandEdgesError, db2, [.alterSchema])
            else if eng.applyOk = false then
              (.error .applyMutationsError, db2, [.alterSchema, .applyMutations])
            else if eng.commitOk = false then
              (.error .applyCommittedError, db2,
               [.alterSchema, .applyMutations, .applyCommitted])
            else
              (.ok (gid, setGidField object gid), db2,
               [.alterSchema, .applyMutations, .applyCommitted])

/-- `Get` (src/api.go lines 121-136): resolve the namespace, then dispatch on
the unique-field argument into `executeGetWithObject`. -/
def Get (db : DB) (opts : Option Nat) (t : TypeDesc) (arg : UniqueFieldArg)
    (respE : Except Err (List GoObject))
    (decode : GoObject → Except Err (Nat × GoObject)) :
    Except Err (Nat × GoObject) :=
  match getDefaultNamespace db opts with
  | .error e => .error e
  | .ok _ => executeGetWithObject t arg respE decode

/-! ### Filter query construction (src/api_types.go lines 43-80, 197-251) -/

/-- `StringPredicate` (src/api_types.go lines 64-75). -/
structure StringPredicate where
  Equals : String
  LessThan : String
  LessOrEqual : String
  GreaterThan : String
  GreaterOrEqual : String
  AllOfTerms : List String
  AnyOfTerms : List String
  AllOfText : List String
  AnyOfText : List String
  RegExp : String
deriving Repr, DecidableEq

/-- `VectorPredicate` (src/api_types.go lines 77-80); the float32 payload is
carried opaquely (it is never computed on in the embedded control flow). -/
structure VectorPredicate where
  SimilarTo : Option (List Nat)
  TopK : Int
deriving Repr, DecidableEq

/-- `Filter` (src/api_types.go lines 43-50): one node carries a field name,
a string predicate record, a vector predicate record, and optional And/Or/Not
child filters, all settable simultaneously. -/
inductive Filter where
  | mk (Field : String) (StringPred : StringPredicate) (Vector : VectorPredicate)
      (And : Option Filter) (Or : Option Filter) (Not : Option Filter)

/-- The clause built by the `dql_query` builders.  That package is external
to the sources under verification; each builder is represented by a distinct
constructor, which is exactly what the dispatch-order claim requires. -/
inductive QueryClause where
  | and (q : QueryClause)
  | or (q : QueryClause)
  | not (q : QueryClause)
  | eq (pred : String) (val : String)
  | allOfTerms (pred : String) (terms : String)
  | anyOfTerms (pred : String) (terms : String)
  | allOfText (pred : String) (terms : String)
  | anyOfText (pred : String) (terms : String)
  | regexp (pred : String) (pat : String)
  | lt (pred : String) (val : String)
  | le (pred : String) (val : String)
  | gt (pred : String) (val : String)
  | ge (pred : String) (val : String)
  | similarTo (pred : String) (topK : Int) (vec : List Nat)
  | empty
deriving Repr, DecidableEq

/-- Modelled from the spec: `utils.GetPredicateName` is not among the
sources under verification; per the spec glossary, predicates are scoped as
TypeName dot field. -/
def GetPredicateName (typeName fieldName : String) : String :=
  typeName ++ "." ++ fieldName

/-- `filterToQueryFunc` (src/api_types.go lines 197-246): logical operators
first, then the leaf predicates in source order, else the empty clause. -/
def filterToQueryFunc (typeName : String) : Filter → QueryClause
  | .mk field sp vp fAnd fOr fNot =>
    match fAnd with
    | some g => .and (filterToQueryFunc typeName g)
    | none =>
      match fOr with
      | some g => .or (filterToQueryFunc typeName g)
      | none =>
        match fNot with
        | some g => .not (filterToQueryFunc typeName g)
        | none =>
          if sp.Equals ≠ "" then
            .eq (GetPredicateName typeName field) sp.Equals
          else if sp.AllOfTerms ≠ [] then
            .allOfTerms (GetPredicateName typeName field)
              (String.intercalate " " sp.AllOfTerms)
          else if sp.AnyOfTerms ≠ [] then
            .anyOfTerms (GetPredicateName typeName field)
              (String.intercalate " " sp.AnyOfTerms)
          else if sp.AllOfText ≠ [] then
            .allOfText (GetPredicateName typeName field)
              (String.intercalate " " sp.AllOfText)
          else if sp.AnyOfText ≠ [] then
            .anyOfText (GetPredicateName typeName field)
              (String.intercalate " " sp.AnyOfText)
          else if sp.RegExp ≠ "" then
            .regexp (GetPredicateName typeName field) sp.RegExp
          else if sp.LessThan ≠ "" then
            .lt (GetPredicateName typeName field) sp.LessThan
          else if sp.LessOrEqual ≠ "" then
            .le (GetPredicateName typeName field) sp.LessOrEqual
          else if sp.GreaterThan ≠ "" then
            .gt (GetPredicateName typeName field) sp.GreaterThan
          else if sp.GreaterOrEqual ≠ "" then
            .ge (GetPredicateName typeName field) sp.GreaterOrEqual
          else if vp.SimilarTo.isSome then
            .similarTo (GetPredicateName typeName field) vp.TopK
              (vp.SimilarTo.getD [])
          else .empty

/-- `filtersToQueryFunc` (src/api_types.go lines 249-251). -/
def filtersToQueryFunc (typeName : String) (filter : Filter) : QueryClause :=
  filterToQueryFunc typeName filter

/-! ### Setup lemmas for the API claims -/

theorem Create_ok_obj (eng : EngineBehavior) (db : DB) (opts : Option Nat)
    (obj : GoObject) (gid : Nat) (obj' : GoObject) (db' : DB)
    (tr : List EngineCall)
    (h : Create eng db opts obj = (.ok (gid, obj'), db', tr)) :
    obj' = setGidField obj gid := by
  unfold Create at h
  rcases h1 : getDefaultNamespace db opts with e | n <;> rw [h1] at h
  · simp at h
  rcases h2 : nextUID eng.leaseOk db.zw with ⟨o1, w1⟩
  rw [h2] at h
  rcases o1 with _ | gid2
  · simp at h
  dsimp only at h
  cases he1 : eng.encodeOk <;> rw [he1] at h
  · simp at h
  cases he2 : eng.edgesOk <;> rw [he2] at h
  · simp at h
  cases he3 : eng.alterOk <;> rw [he3] at h
  · simp at h
  cases hopen : db.isOpen <;> rw [hopen] at h
  · simp at h
  rcases h3 : nextTS eng.leaseOk w1 with ⟨o2, w2⟩
  rw [h3] at h
  rcases o2 with _ | ts1
  · simp at h
  dsimp only at h
  rcases h4 : nextTS eng.leaseOk w2 with ⟨o3, w3⟩
  rw [h4] at h
  rcases o3 with _ | ts2
  · simp at h
  dsimp only at h
  cases he4 : eng.expandOk <;> rw [he4] at h
  · simp at h
  cases he5 : eng.applyOk <;> rw [he5] at h
  · simp at h
  cases he6 : eng.commitOk <;> rw [he6] at h
  · simp at h
  simp at h
  obtain ⟨⟨rfl, rfl⟩, -⟩ := h
  rfl

theorem setGidField_no_gid (obj : GoObject) (gid : Nat)
    (h : hasGidField obj = false) : setGidField obj gid = obj := by
  unfold setGidField
  unfold hasGidField at h
  rw [List.any_eq_false] at h
  cases obj with
  | mk fs =>
    simp only [GoObject.mk.injEq]
    have hall : ∀ f ∈ fs,
        (if f.name = "Gid" ∧ f.settable = true ∧ f.val.isU64 = true then
          { f with val := GoVal.u64 gid } else f) = f := by
      intro f hf
      have hb := h f hf
      rw [if_neg]
      rintro ⟨ha, hs, hu⟩
      simp [ha, hs, hu] at hb
    calc List.map _ fs = List.map id fs := List.map_congr_left hall
    _ = fs := List.map_id fs

theorem setGidField_length (obj : GoObject) (gid : Nat) :
    (setGidField obj gid).fields.length = obj.fields.length := by
  unfold setGidField
  exact List.length_map _ _

/-! ### Claim C6 -/

/-- C6: Every public operation invoked after the database handle has been
closed fails immediately with the distinguished closed-database error before
making any engine call; in particular, Create on a closed DB returns
ErrClosedDB before any schema alteration is applied to the engine and before
any mutation is proposed or committed (empty engine-call trace, handle and
lease state untouched), and Get likewise fails with the closed error. -/
theorem closedDB_rejected_before_engine (eng : EngineBehavior) (db : DB)
    (opts : Option Nat) (obj : GoObject) (t : TypeDesc) (arg : UniqueFieldArg)
    (respE : Except Err (List GoObject))
    (decode : GoObject → Except Err (Nat × GoObject))
    (h : db.isOpen = false) :
    Create eng db opts obj = (.error .closedDB, db, []) ∧
    Get db opts t arg respE decode = .error .closedDB := by
  have hns : getDefaultNamespace db opts = .error .closedDB := by
    simp [getDefaultNamespace, getNamespaceWithLock, h]
  constructor
  · simp only [Create, hns]
  · simp only [Get, hns]

/-- Witness for C6 at a concrete closed handle. -/
theorem closedDB_rejected_before_engine_witness :
    Create ⟨true, true, true, true, true, true, true⟩
        ⟨false, w0, [0], 0⟩ none ⟨[]⟩
      = (.error .closedDB, ⟨false, w0, [0], 0⟩, []) ∧
    Get ⟨false, w0, [0], 0⟩ none ⟨"User", [("clerk_id", "unique")]⟩
        (.uid 2) (.ok []) (fun o => .ok (0, o))
      = .error .closedDB :=
  closedDB_rejected_before_engine ⟨true, true, true, true, true, true, true⟩
    ⟨false, w0, [0], 0⟩ none ⟨[]⟩ ⟨"User", [("clerk_id", "unique")]⟩
    (.uid 2) (.ok []) (fun o => .ok (0, o)) rfl

/-! ### Claim C7 -/

/-- C7: When a Get (by identifier or by constrained field) matches zero
objects, the call returns the distinguished no-object-found error, and a
successful result is only ever produced from a nonempty match list (never
from a zero-result response). -/
theorem get_zero_results_no_obj_found (t : TypeDesc) (arg : UniqueFieldArg)
    (decode : GoObject → Except Err (Nat × GoObject))
    (hchk : ¬ t.jsonToDbTag (argKey arg) = some "") :
    executeGetWithObject t arg (.ok []) decode = .error .noObjFound ∧
    (∀ respE g o, executeGetWithObject t arg respE decode = .ok (g, o) →
      ∃ objs, respE = .ok objs ∧ objs ≠ []) := by
  constructor
  · unfold executeGetWithObject
    cases htag : t.jsonToDbTag (argKey arg) with
    | none => simp [executeGetQueryPhase]
    | some c =>
      have hcne : ¬ c = "" := fun hc => hchk (hc ▸ htag)
      dsimp only
      rw [if_neg hcne]
      simp [executeGetQueryPhase]
  · intro respE g o hsucc
    unfold executeGetWithObject at hsucc
    have hphase : executeGetQueryPhase respE decode = .ok (g, o) →
        ∃ objs, respE = .ok objs ∧ objs ≠ [] := by
      intro hp
      unfold executeGetQueryPhase at hp
      cases respE with
      | error e => cases hp
      | ok objs =>
        cases objs with
        | nil => cases hp
        | cons o2 rest => exact ⟨o2 :: rest, rfl, by simp⟩
    cases htag : t.jsonToDbTag (argKey arg) with
    | none =>
      rw [htag] at hsucc
      exact hphase hsucc
    | some c =>
      have hcne : ¬ c = "" := fun hc => hchk (hc ▸ htag)
      rw [htag] at hsucc
      dsimp only at hsucc
      rw [if_neg hcne] at hsucc
      exact hphase hsucc

/-- Witness for C7: a gid Get over a response with zero matches. -/
theorem get_zero_results_no_obj_found_witness :
    executeGetWithObject ⟨"User", [("clerk_id", "unique")]⟩ (.uid 2)
        (.ok []) (fun o => .ok (0, o))
      = .error .noObjFound :=
  (get_zero_results_no_obj_found ⟨"User", [("clerk_id", "unique")]⟩ (.uid 2)
    (fun o => .ok (0, o)) (by decide)).1

/-! ### Claim C9 -/

/-- C9: For every call of Get with a ConstrainedField whose Key names a
declared field of the type that does not carry a constraint tag, the call
fails with the constraint-not-defined error, for every possible engine
response (the lookup result is never consulted). -/
theorem get_unconstrained_key_rejected (t : TypeDesc) (c : ConstrainedField)
    (respE : Except Err (List GoObject))
    (decode : GoObject → Except Err (Nat × GoObject))
    (hdecl : t.jsonToDbTag c.Key = some "") :
    executeGetWithObject t (.cf c) respE decode
      = .error (.constraintNotDefined c.Key) := by
  unfold executeGetWithObject
  simp [argKey, hdecl]

/-- Witness for C9: looking up by the declared but unconstrained field
"name" fails with the constraint error even on a nonempty response. -/
theorem get_unconstrained_key_rejected_witness :
    executeGetWithObject ⟨"User", [("name", ""), ("clerk_id", "unique")]⟩
        (.cf ⟨"name", "B"⟩) (.ok [⟨[]⟩]) (fun o => .ok (0, o))
      = .error (.constraintNotDefined "name") :=
  get_unconstrained_key_rejected ⟨"User", [("name", ""), ("clerk_id", "unique")]⟩
    ⟨"name", "B"⟩ (.ok [⟨[]⟩]) (fun o => .ok (0, o)) (by decide)

/-! ### Claim C8 -/

/-- C8: filterToQueryFunc evaluates a filter node in the fixed precedence
order And, Or, Not, Equals, AllOfTerms, AnyOfTerms, AllOfText, AnyOfText,
RegExp, LessThan, LessOrEqual, GreaterThan, GreaterOrEqual, SimilarTo: the
first predicate set in this order determines the clause regardless of any
predicates after it, and a filter with no predicate set yields the
unconstrained empty clause. -/
theorem filterToQueryFunc_precedence (tn field : String)
    (sp : StringPredicate) (vp : VectorPredicate)
    (fAnd fOr fNot : Option Filter) :
    (∀ g, fAnd = some g →
      filterToQueryFunc tn (.mk field sp vp fAnd fOr fNot)
        = .and (filterToQueryFunc tn g)) ∧
    (fAnd = none → ∀ g, fOr = some g →
      filterToQueryFunc tn (.mk field sp vp fAnd fOr fNot)
        = .or (filterToQueryFunc tn g)) ∧
    (fAnd = none → fOr = none → ∀ g, fNot = some g →
      filterToQueryFunc tn (.mk field sp vp fAnd fOr fNot)
        = .not (filterToQueryFunc tn g)) ∧
    (fAnd = none → fOr = none → fNot = none →
      sp.Equals ≠ "" →
      filterToQueryFunc tn (.mk field sp vp fAnd fOr fNot)
        = .eq (GetPredicateName tn field) sp.Equals) ∧
    (fAnd = none → fOr = none → fNot = none →
      sp.Equals = "" → sp.AllOfTerms ≠ [] →
      filterToQueryFunc tn (.mk field sp vp fAnd fOr fNot)
        = .allOfTerms (GetPredicateName tn field)
            (String.intercalate " " sp.AllOfTerms)) ∧
    (fAnd = none → fOr = none → fNot = none →
      sp.Equals = "" → sp.AllOfTerms = [] → sp.AnyOfTerms ≠ [] →
      filterToQueryFunc tn (.mk field sp vp fAnd fOr fNot)
        = .anyOfTerms (GetPredicateName tn field)
            (String.intercalate " " sp.AnyOfTerms)) ∧
    (fAnd = none → fOr = none → fNot = none →
      sp.Equals = "" → sp.AllOfTerms = [] → sp.AnyOfTerms = [] →
      sp.AllOfText ≠ [] →
      filterToQueryFunc tn (.mk field sp vp fAnd fOr fNot)
        = .allOfText (GetPredicateName tn field)
            (String.intercalate " " sp.AllOfText)) ∧
    (fAnd = none → fOr = none → fNot = none →
      sp.Equals = "" → sp.AllOfTerms = [] → sp.AnyOfTerms = [] →
      sp.AllOfText = [] → sp.AnyOfText ≠ [] →
      filterToQueryFunc tn (.mk field sp vp fAnd fOr fNot)
        = .anyOfText (GetPredicateName tn field)
            (String.intercalate " " sp.AnyOfText)) ∧
    (fAnd = none → fOr = none → fNot = none →
      sp.Equals = "" → sp.AllOfTerms = [] → sp.AnyOfTerms = [] →
      sp.AllOfText = [] → sp.AnyOfText = [] → sp.RegExp ≠ "" →
      filterToQueryFunc tn (.mk field sp vp fAnd fOr fNot)
        = .regexp (GetPredicateName tn field) sp.RegExp) ∧
    (fAnd = none → fOr = none → fNot = none →
      sp.Equals = "" → sp.AllOfTerms = [] → sp.AnyOfTerms = [] →
      sp.AllOfText = [] → sp.AnyOfText = [] → sp.RegExp = "" →
      sp.LessThan ≠ "" →
      filterToQueryFunc tn (.mk field sp vp fAnd fOr fNot)
        = .lt (GetPredicateName tn field) sp.LessThan) ∧
    (fAnd = none → fOr = none → fNot = none →
      sp.Equals = "" → sp.AllOfTerms = [] → sp.AnyOfTerms = [] →
      sp.AllOfText = [] → sp.AnyOfText = [] → sp.RegExp = "" →
      sp.LessThan = "" → sp.LessOrEqual ≠ "" →
      filterToQueryFunc tn (.mk field sp vp fAnd fOr fNot)
        = .le (GetPredicateName tn field) sp.LessOrEqual) ∧
    (fAnd = none → fOr = none → fNot = none →
      sp.Equals = "" → sp.AllOfTerms = [] → sp.AnyOfTerms = [] →
      sp.AllOfText = [] → sp.AnyOfText = [] → sp.RegExp = "" →
      sp.LessThan = "" → sp.LessOrEqual = "" → sp.GreaterThan ≠ "" →
      filterToQueryFunc tn (.mk field sp vp fAnd fOr fNot)
        = .gt (GetPredicateName tn field) sp.GreaterThan) ∧
    (fAnd = none → fOr = none → fNot = none →
      sp.Equals = "" → sp.AllOfTerms = [] → sp.AnyOfTerms = [] →
      sp.AllOfText = [] → sp.AnyOfText = [] → sp.RegExp = "" →
      sp.LessThan = "" → sp.LessOrEqual = "" → sp.GreaterThan = "" →
      sp.GreaterOrEqual ≠ "" →
      filterToQueryFunc tn (.mk field sp vp fAnd fOr fNot)
        = .ge (GetPredicateName tn field) sp.GreaterOrEqual) ∧
    (fAnd = none → fOr = none → fNot = none →
      sp.Equals = "" → sp.AllOfTerms = [] → sp.AnyOfTerms = [] →
      sp.AllOfText = [] → sp.AnyOfText = [] → sp.RegExp = "" →
      sp.LessThan = "" → sp.LessOrEqual = "" → sp.GreaterThan = "" →
      sp.GreaterOrEqual = "" → vp.SimilarTo.isSome = true →
      filterToQueryFunc tn (.mk field sp vp fAnd fOr fNot)
        = .similarTo (GetPredicateName tn field) vp.TopK
            (vp.SimilarTo.getD [])) ∧
    (fAnd = none → fOr = none → fNot = none →
      sp.Equals = "" → sp.AllOfTerms = [] → sp.AnyOfTerms = [] →
      sp.AllOfText = [] → sp.AnyOfText = [] → sp.RegExp = "" →
      sp.LessThan = "" → sp.LessOrEqual = "" → sp.GreaterThan = "" →
      sp.GreaterOrEqual = "" → vp.SimilarTo = none →
      filterToQueryFunc tn (.mk field sp vp fAnd fOr fNot)
        = .empty) := by
  refine ⟨?_, ?_, ?_, ?_, ?_, ?_, ?_, ?_, ?_, ?_, ?_, ?_, ?_, ?_, ?_⟩
  · intro g hg
    subst hg
    simp [filterToQueryFunc]
  · intro h1 g hg
    subst h1
    subst hg
    simp [filterToQueryFunc]
  · intro h1 h2 g hg
    subst h1
    subst h2
    subst hg
    simp [filterToQueryFunc]
  all_goals
    intro h1 h2 h3
    subst h1
    subst h2
    subst h3
    intros
    simp [filterToQueryFunc, *]

/-- Witness for C8: with every leaf predicate set at once on one node,
Equals wins. -/
theorem filterToQueryFunc_precedence_witness :
    filterToQueryFunc "User"
        (.mk "age" ⟨"30", "1", "2", "3", "4", ["t"], ["t"], ["t"], ["t"], "re"⟩
          ⟨some [1], 5⟩ none none none)
      = .eq "User.age" "30" :=
  (filterToQueryFunc_precedence "User" "age"
      ⟨"30", "1", "2", "3", "4", ["t"], ["t"], ["t"], ["t"], "re"⟩
      ⟨some [1], 5⟩ none none none).2.2.2.1 rfl rfl rfl (by decide)

/-! ### Claim C10 -/

/-- C10: a successful Create stamps the allocated identifier back into the
caller's object exactly at a settable uint64 field named "Gid": the returned
object is `setGidField obj gid`; if no such field exists the object is
returned unmodified (while Create still returns the identifier and success);
and no field other than a qualifying "Gid" field is ever modified. -/
theorem create_stamps_only_gid (eng : EngineBehavior) (db : DB)
    (opts : Option Nat) (obj : GoObject) (gid : Nat) (obj' : GoObject)
    (db' : DB) (tr : List EngineCall)
    (h : Create eng db opts obj = (.ok (gid, obj'), db', tr)) :
    obj' = setGidField obj gid ∧
    (hasGidField obj = false → obj' = obj) ∧
    obj'.fields.length = obj.fields.length ∧
    ∀ i (hi : i < obj.fields.length) (hi2 : i < obj'.fields.length),
      ((obj.fields[i]).name ≠ "Gid" → obj'.fields[i] = obj.fields[i]) ∧
      (¬ ((obj.fields[i]).name = "Gid" ∧ (obj.fields[i]).settable = true ∧
          (obj.fields[i]).val.isU64 = true) →
        obj'.fields[i] = obj.fields[i]) ∧
      ((obj.fields[i]).name = "Gid" → (obj.fields[i]).settable = true →
        (obj.fields[i]).val.isU64 = true →
        obj'.fields[i] = { obj.fields[i] with val := GoVal.u64 gid }) := by
  have hobj : obj' = setGidField obj gid := Create_ok_obj _ _ _ _ _ _ _ _ h
  subst hobj
  refine ⟨rfl, fun hng => setGidField_no_gid obj gid hng,
    setGidField_length obj gid, ?_⟩
  intro i hi hi2
  have hget : (setGidField obj gid).fields[i] =
      (if (obj.fields[i]).name = "Gid" ∧ (obj.fields[i]).settable = true ∧
          (obj.fields[i]).val.isU64 = true then
        { obj.fields[i] with val := GoVal.u64 gid } else obj.fields[i]) := by
    unfold setGidField
    simp
  refine ⟨?_, ?_, ?_⟩
  · intro hne
    rw [hget, if_neg]
    rintro ⟨ha, -⟩
    exact hne ha
  · intro hns
    rw [hget, if_neg hns]
  · intro ha hs hu
    rw [hget, if_pos ⟨ha, hs, hu⟩]

/-- An example object with a settable uint64 Gid field and a string field. -/
def objEx : GoObject := ⟨[⟨"Gid", true, .u64 0⟩, ⟨"Name", true, .str "B"⟩]⟩

/-- An all-success engine oracle. -/
def engEx : EngineBehavior := ⟨true, true, true, true, true, true, true⟩

/-- An open database handle over the fresh lease world. -/
def dbEx : DB := ⟨true, w0, [0], 0⟩

/-- Witness for C10: a successful Create over `objEx` preserves length and
leaves the non-Gid field untouched. -/
theorem create_stamps_only_gid_witness :
    (setGidField objEx 2).fields.length = objEx.fields.length ∧
    (setGidField objEx 2).fields.get ⟨1, by decide⟩
      = objEx.fields.get ⟨1, by decide⟩ := by
  have H := create_stamps_only_gid engEx dbEx none objEx 2 (setGidField objEx 2)
    ⟨true, ⟨⟨3, 10004, 5, 10006, 0⟩, some ⟨10004, 10006, 0⟩, 2⟩, [0], 0⟩
    [.alterSchema, .applyMutations, .applyCommitted]
    (by
      have hu : uidLoop true ⟨⟨3, 10004, 3, 10006, 0⟩, some ⟨10004, 10006, 0⟩, 2⟩
          = (true, ⟨⟨3, 10004, 3, 10006, 0⟩, some ⟨10004, 10006, 0⟩, 2⟩) :=
        uidLoop_of_lt true _ (by decide)
      have hn : nextUID true w0
          = (some 2, ⟨⟨3, 10004, 3, 10006, 0⟩, some ⟨10004, 10006, 0⟩, 2⟩) := by
        simp [nextUID, nextUIDs, w0, hu]
      simp [Create, getDefaultNamespace, getNamespaceWithLock, engEx, dbEx,
        hn, nextTS])
  exact ⟨H.2.2.1, (H.2.2.2 1 (by decide) (by decide)).1 (by decide)⟩

end ModusDB
